import Mathlib

/-!
Verification development for the dependency-tree construction core of the
rusty-tags repository (src/src/dependencies.rs).

The Rust module is shallowly embedded: serde_json values become the `Json`
inductive, `PathBuf` becomes `FsPath` (absolute flag plus component list),
`RtResult` becomes `Except String`, and filesystem queries plus the external
collaborators that are not part of src/ (the identifier parser
`SourceVersion::parse_from_id`, the `Source::new` validating constructor and
the `DepTree` container from the types module) are modelled as an explicit
environment `Env` or, where the specification pins their behaviour, as
definitions marked `Modelled from the spec`.

Logging (the verbose macro) has no semantic effect and is omitted.
-/

/-- A JSON value, mirroring the subset of serde_json used by the source:
null, booleans, integers, strings, arrays and objects (ordered field lists,
keys unique in every document we consider). -/
inductive Json where
  | null : Json
  | bool : Bool → Json
  | num : Int → Json
  | str : String → Json
  | arr : List Json → Json
  | obj : List (String × Json) → Json

/-- Field access on an object, mirroring serde_json Value::get: the first
field with the requested key, none on a non-object. -/
def Json.get : Json → String → Option Json
  | .obj fs, k =>
      match fs.find? (fun p => p.1 == k) with
      | some p => some p.2
      | none => none
  | _, _ => none

/-- Mirrors serde_json Value::as_str. -/
def Json.asStr : Json → Option String
  | .str s => some s
  | _ => none

/-- Mirrors serde_json Value::as_array. -/
def Json.asArr : Json → Option (List Json)
  | .arr xs => some xs
  | _ => none

/-- Mirrors serde_json Value::as_object (the field list). -/
def Json.asObj : Json → Option (List (String × Json))
  | .obj fs => some fs
  | _ => none

/-- Checks whether the first list occurs at the head of the second. -/
def leadMatch [BEq α] : List α → List α → Bool
  | [], _ => true
  | _ :: _, [] => false
  | n :: ns, h :: hs => n == h && leadMatch ns hs

/-- Checks whether the first list occurs contiguously inside the second. -/
def hasSub [BEq α] : List α → List α → Bool
  | ns, [] => ns.isEmpty
  | ns, h :: hs => leadMatch ns (h :: hs) || hasSub ns hs

/-- Mirrors Rust str::contains with a string pattern: `rustContains s pat`
is true when `pat` occurs as a contiguous substring of `s`. -/
def rustContains (s pat : String) : Bool :=
  hasSub pat.toList s.toList

mutual
/-- Modelled from the spec: serde_json::to_string_pretty renders a value as
JSON text (the exact indentation of the pretty printer is not load-bearing
for any claim; only which field names and atoms occur in the snippet is). -/
def renderJson : Json → String
  | .null => "null"
  | .bool true => "true"
  | .bool false => "false"
  | .num n => toString n
  | .str s => "\x22" ++ s ++ "\x22"
  | .arr xs => "[" ++ renderList xs ++ "]"
  | .obj fs => "\x7b" ++ renderFields fs ++ "\x7d"
def renderList : List Json → String
  | [] => ""
  | [x] => renderJson x
  | x :: xs => renderJson x ++ "," ++ renderList xs
def renderFields : List (String × Json) → String
  | [] => ""
  | [(k, v)] => "\x22" ++ k ++ "\x22: " ++ renderJson v
  | (k, v) :: fs => "\x22" ++ k ++ "\x22: " ++ renderJson v ++ "," ++ renderFields fs
end

/-- Mirrors to_string_pretty of the source (serde failure branch never
taken in the model). -/
def to_string_pretty (value : Json) : String :=
  renderJson value

/-- A filesystem path: mirrors std::path::PathBuf on unix as an
absolute-or-relative flag plus the list of nonempty components. -/
structure FsPath where
  abs : Bool
  comps : List String
deriving DecidableEq, Repr

/-- Splits a character list at every slash. -/
def splitSlashAux : List Char → List Char → List String
  | [], cur => [String.mk cur.reverse]
  | c :: cs, cur =>
      if c == '/' then String.mk cur.reverse :: splitSlashAux cs []
      else splitSlashAux cs (c :: cur)

/-- The nonempty slash-separated components of a string. -/
def splitComps (s : String) : List String :=
  (splitSlashAux s.toList []).filter (fun c => c != "")

/-- Mirrors PathBuf::from on a unix path string: a leading slash makes the
path absolute, the components are the nonempty slash-separated pieces. -/
def FsPath.fromString (s : String) : FsPath :=
  { abs :=
      match s.toList with
      | c :: _ => c == '/'
      | [] => false,
    comps := splitComps s }

/-- Mirrors FsPath::is_absolute on unix. -/
def FsPath.isAbsolute (p : FsPath) : Bool := p.abs

/-- Mirrors FsPath::is_relative on unix. -/
def FsPath.isRelative (p : FsPath) : Bool := !p.abs

/-- Mirrors FsPath::parent: drops the last component; none when there is no
component left (the root path or the empty relative path). -/
def FsPath.parent : FsPath → Option FsPath
  | ⟨_, []⟩ => none
  | ⟨a, c :: cs⟩ => some ⟨a, (c :: cs).dropLast⟩

/-- Mirrors FsPath::join with a single relative component. -/
def FsPath.join (p : FsPath) (c : String) : FsPath :=
  ⟨p.abs, p.comps ++ [c]⟩

/-- Renders a path for diagnostic messages (mirrors Display of PathBuf). -/
def FsPath.render (p : FsPath) : String :=
  (if p.abs then "/" else "") ++ String.intercalate "/" p.comps

/-- An opaque node handle minted by the dependency tree. -/
abbrev SourceId := Nat

/-- Modelled from the spec: the Identity parsed from a canonical identifier
string by the external SourceVersion::parse_from_id routine is opaque,
comparable and hashable; the model keeps the carrier as a string and lets
the environment decide how identifier strings parse. -/
abbrev SourceVersion := String

/-- The transient per-package record of the resolver (struct Package of the
source): the allocated node handle and the resolved source directories. -/
structure Package where
  source_id : SourceId
  source_paths : List FsPath
deriving DecidableEq, Repr

/-- The Packages mapping of the source. Modelled: FnvHashMap as an
association list in insertion order; keys are unique by construction
because an entry is only appended when the key is absent. -/
abbrev Packages := List (SourceVersion × Package)

/-- Modelled from the spec: the final graph node Source of the external
types module. Fields beyond id, identity, source directories and the root
flag are attached by the external constructor and carry no weight here. -/
structure Source where
  id : SourceId
  version : SourceVersion
  dirs : List FsPath
  is_root : Bool
deriving DecidableEq, Repr

/-- Modelled from the spec: the DepTree container of the external types
module. It owns the registered sources with their dependency-handle lists,
the root-handle set, the handle allocator and the computed depths; the
reserved capacity is a pure optimization with no semantic effect. -/
structure DepTree where
  reserved : Nat
  next_id : Nat
  sources : List (Source × List SourceId)
  roots : List SourceId
  depths : List (SourceId × Nat)
deriving DecidableEq, Repr

/-- Modelled from the spec: an empty tree. -/
def DepTree.new : DepTree :=
  { reserved := 0, next_id := 0, sources := [], roots := [], depths := [] }

/-- Modelled from the spec: reserve capacity for n nodes (pure
optimization, no semantic effect). -/
def DepTree.reserve_num_sources (t : DepTree) (n : Nat) : DepTree :=
  { t with reserved := n }

/-- Modelled from the spec: allocate a fresh node handle. -/
def DepTree.new_source (t : DepTree) : SourceId × DepTree :=
  (t.next_id, { t with next_id := t.next_id + 1 })

/-- Modelled from the spec: set the root-handle set, replacing any prior
set. -/
def DepTree.set_roots (t : DepTree) (ids : List SourceId) : DepTree :=
  { t with roots := ids }

/-- Modelled from the spec: register a Source together with its
dependency-handle list. -/
def DepTree.set_source (t : DepTree) (s : Source) (deps : List SourceId) : DepTree :=
  { t with sources := t.sources ++ [(s, deps)] }

/-- The dependency handles recorded for a registered node; empty for a
handle with no registered node. -/
def DepTree.depsOf (t : DepTree) (i : SourceId) : List SourceId :=
  match t.sources.find? (fun p => p.1.id == i) with
  | some p => p.2
  | none => []

/-- Modelled from the spec: depth of a node, zero for a node with no
recorded dependencies and one more than the maximal dependency depth
otherwise. Cyclic edge sets are an upstream contract violation, so the
recursion is bounded by fuel (the node count suffices on any DAG). -/
def DepTree.depthOf (t : DepTree) : Nat → SourceId → Nat
  | 0, _ => 0
  | fuel + 1, i =>
      match t.depsOf i with
      | [] => 0
      | ds => 1 + (ds.map (t.depthOf fuel)).foldl Nat.max 0

/-- Modelled from the spec: compute depths once over the complete graph. -/
def DepTree.compute_depths (t : DepTree) : DepTree :=
  { t with depths := t.sources.map (fun p => (p.1.id, t.depthOf t.sources.length p.1.id)) }

/-- The configuration fields consumed by the core: the omit-deps toggle.
The verbosity toggle gates logging only and the remaining fields are
consumed opaquely by the external Source constructor, which the
environment models. -/
structure Config where
  omit_deps : Bool

/-- The external world of one construction run: how identifier strings
parse, which paths are existing files or directories, and whether the
external Source constructor rejects a node (some message) or accepts it
(none). All are fixed, side-effect-free functions, matching the
specification of the collaborators outside src/. -/
structure Env where
  parse_from_id : String → Except String SourceVersion
  is_file : FsPath → Bool
  is_dir : FsPath → Bool
  source_new_err : SourceId → SourceVersion → List FsPath → Bool → Option String

/-- Modelled from the spec: Source::new of the external types module
builds the node from handle, identity, directories and root flag, after a
Config-driven validation that may reject it; rejection propagates. -/
def Source.new (env : Env) (i : SourceId) (version : SourceVersion)
    (paths : List FsPath) (is_root : Bool) (_config : Config) : Except String Source :=
  match env.source_new_err i version paths is_root with
  | some e => Except.error e
  | none => Except.ok { id := i, version := version, dirs := paths, is_root := is_root }

/-- Mirrors as_array_from_value of the source. -/
def as_array_from_value (entry : String) (value : Json) : Except String (List Json) :=
  match (value.get entry).bind Json.asArr with
  | some a => Except.ok a
  | none => Except.error ("Couldn\x27t find array entry \x27" ++ entry ++ "\x27 in:\n" ++ to_string_pretty value)

/-- Mirrors as_str_from_value of the source. -/
def as_str_from_value (entry : String) (value : Json) : Except String String :=
  match (value.get entry).bind Json.asStr with
  | some s => Except.ok s
  | none => Except.error ("Couldn\x27t find string entry \x27" ++ entry ++ "\x27 in:\n" ++ to_string_pretty value)

/-- Mirrors as_object_from_value of the source. -/
def as_object_from_value (entry : String) (value : Json) : Except String (List (String × Json)) :=
  match (value.get entry).bind Json.asObj with
  | some o => Except.ok o
  | none => Except.error ("Couldn\x27t find object entry \x27" ++ entry ++ "\x27 in:\n" ++ to_string_pretty value)

/-- Mirrors as_array_from_object of the source (the debug rendering of the
map approximated by the pretty rendering of the object). -/
def as_array_from_object (entry : String) (object : List (String × Json)) : Except String (List Json) :=
  match (object.find? (fun p => p.1 == entry)).map Prod.snd |>.bind Json.asArr with
  | some a => Except.ok a
  | none => Except.error ("Couldn\x27t find array entry \x27" ++ entry ++ "\x27 in:\n" ++ to_string_pretty (Json.obj object))

/-- Looks a version up in the Packages association list (FnvHashMap::get). -/
def lookupPkg (packages : Packages) (v : SourceVersion) : Option Package :=
  match packages.find? (fun q => q.1 == v) with
  | some q => some q.2
  | none => none

/-- Mirrors fn package of the source: mapping lookup, failure is the
unresolved-reference error. -/
def package (source_version : SourceVersion) (packages : Packages) : Except String Package :=
  match lookupPkg packages source_version with
  | some p => Except.ok p
  | none => Except.error ("Couldn\x27t find package for " ++ source_version)

/-- A target kind string the source treats as supported; the source skips
a kind unless it is bin, contains lib, or is proc-macro or test. -/
def supportedKind (s : String) : Bool :=
  s == "bin" || rustContains s "lib" || s == "proc-macro" || s == "test"

/-- The body of the source_path target scan once a supported kind is found
(lines 186 to 207 of the source): compute the candidate directory from the
src_path of the target and validate it. -/
def resolveSupported (env : Env) (_config : Config) (pkg target : Json)
    (manifest_dir : FsPath) (dotarget : Bool) : Except String (Option FsPath) :=
  match as_str_from_value "src_path" target with
  | Except.error e => Except.error e
  | Except.ok s =>
    let src0 := FsPath.fromString s
    let step :=
      if src0.isAbsolute && env.is_file src0 then
        match src0.parent with
        | none =>
            Except.error ("Couldn\x27t get directory of path \x27" ++ src0.render
              ++ "\x27 in target:\n" ++ to_string_pretty target
              ++ "\nof package:\n" ++ to_string_pretty pkg)
        | some d =>
            if dotarget then
              match d.parent with
              | none =>
                  Except.error ("Couldn\x27t get package directory of path \x27" ++ d.render
                    ++ "\x27 in target:\n" ++ to_string_pretty target
                    ++ "\nof package:\n" ++ to_string_pretty pkg)
              | some pkg_path => Except.ok (pkg_path.join "target")
            else Except.ok d
      else Except.ok src0
    match step with
    | Except.error e => Except.error e
    | Except.ok src1 =>
      let src2 := if src1.isRelative then manifest_dir else src1
      if env.is_dir src2 then Except.ok (some src2)
      else if dotarget then Except.ok none
      else Except.error ("Invalid source path directory \x27" ++ src2.render ++ "\x27")

/-- The inner kind loop of source_path: skip unsupported kinds (the source
states the negated condition kind not bin, not containing lib, not
proc-macro, not test); the first supported kind hands over to
resolveSupported, whose outcome is returned from the whole scan (some),
while exhaustion without a supported kind falls through (none). -/
def scanKinds (env : Env) (config : Config) (pkg target : Json)
    (manifest_dir : FsPath) (dotarget : Bool) : List Json → Except String (Option (Option FsPath))
  | [] => Except.ok none
  | k :: ks =>
      match k.asStr with
      | none => Except.error ("Expected \x27kind\x27 of type string but found: " ++ to_string_pretty k)
      | some kind_str =>
          if supportedKind kind_str then
            match resolveSupported env config pkg target manifest_dir dotarget with
            | Except.error e => Except.error e
            | Except.ok r => Except.ok (some r)
          else scanKinds env config pkg target manifest_dir dotarget ks

/-- The outer target loop of source_path: fetch the kind array of each
target, run the kind scan, return its verdict if it produced one and move
to the next target otherwise. -/
def scanTargets (env : Env) (config : Config) (pkg : Json)
    (manifest_dir : FsPath) (dotarget : Bool) : List Json → Except String (Option FsPath)
  | [] => Except.ok none
  | target :: rest =>
      match as_array_from_value "kind" target with
      | Except.error e => Except.error e
      | Except.ok kinds =>
          match scanKinds env config pkg target manifest_dir dotarget kinds with
          | Except.error e => Except.error e
          | Except.ok (some res) => Except.ok res
          | Except.ok none => scanTargets env config pkg manifest_dir dotarget rest

/-- Mirrors fn source_path of the source: fetch the targets array, compute
the manifest directory as the parent of manifest_path, then scan the
targets. -/
def source_path (env : Env) (config : Config) (pkg : Json) (dotarget : Bool) :
    Except String (Option FsPath) :=
  match as_array_from_value "targets" pkg with
  | Except.error e => Except.error e
  | Except.ok targets =>
      match as_str_from_value "manifest_path" pkg with
      | Except.error e => Except.error e
      | Except.ok mp =>
          let manifest_path := FsPath.fromString mp
          match manifest_path.parent with
          | none => Except.error ("Couldn\x27t get directory of path \x27" ++ manifest_path.render ++ "\x27")
          | some manifest_dir => scanTargets env config pkg manifest_dir dotarget targets

/-- Updates the stored Package of a version by appending a resolved path
to its source_paths (the push through the entry API of the source). -/
def appendPath (packages : Packages) (v : SourceVersion) (p : FsPath) : Packages :=
  packages.map (fun q =>
    if q.1 == v then (q.1, { source_id := q.2.source_id, source_paths := q.2.source_paths ++ [p] })
    else q)

/-- One resolution mode of one package entry (the body of the dotarget
loop of fn packages): parse the id, resolve the directory, skip on absence;
on success the or_insert argument is evaluated first, so new_source runs
and advances the allocator on every resolved sighting, and the freshly
allocated handle is kept only when the version was not in the mapping yet. -/
def resolve_one_mode (env : Env) (config : Config) (pkg : Json) (id : String)
    (dotarget : Bool) (st : Packages × DepTree) : Except String (Packages × DepTree) :=
  match env.parse_from_id id with
  | Except.error e => Except.error e
  | Except.ok source_version =>
      match source_path env config pkg dotarget with
      | Except.error e => Except.error e
      | Except.ok none => Except.ok st
      | Except.ok (some path) =>
          let alloc := st.2.new_source
          match lookupPkg st.1 source_version with
          | some _ => Except.ok (appendPath st.1 source_version path, alloc.2)
          | none => Except.ok (st.1 ++ [(source_version, { source_id := alloc.1, source_paths := [path] })], alloc.2)

/-- One package entry of the package list: fetch its id string, then run
the primary mode (dotarget false) followed by the build-output mode
(dotarget true). -/
def resolve_package_entry (env : Env) (config : Config) (pkg : Json)
    (st : Packages × DepTree) : Except String (Packages × DepTree) :=
  match as_str_from_value "id" pkg with
  | Except.error e => Except.error e
  | Except.ok id =>
      match resolve_one_mode env config pkg id false st with
      | Except.error e => Except.error e
      | Except.ok st1 => resolve_one_mode env config pkg id true st1

/-- The fold over the package list of fn packages. -/
def packagesFold (env : Env) (config : Config) : List Json → (Packages × DepTree) →
    Except String (Packages × DepTree)
  | [], st => Except.ok st
  | p :: ps, st =>
      match resolve_package_entry env config p st with
      | Except.error e => Except.error e
      | Except.ok st1 => packagesFold env config ps st1

/-- Mirrors fn packages of the source (the resolver): fetch the packages
array, reserve capacity, and fold the per-entry resolution over it. -/
def resolve_packages (env : Env) (config : Config) (metadata : Json) (dep_tree : DepTree) :
    Except String (Packages × DepTree) :=
  match as_array_from_value "packages" metadata with
  | Except.error e => Except.error e
  | Except.ok pkgs => packagesFold env config pkgs ([], dep_tree.reserve_num_sources pkgs.length)

/-- The member loop of fn workspace_members: each member must be a string
and must parse. -/
def wsFold (env : Env) : List Json → Except String (List SourceVersion)
  | [] => Except.ok []
  | m :: ms =>
      match m.asStr with
      | none => Except.error ("Expected \x27workspace_members\x27 of type string but found: " ++ to_string_pretty m)
      | some s =>
          match env.parse_from_id s with
          | Except.error e => Except.error e
          | Except.ok v =>
              match wsFold env ms with
              | Except.error e => Except.error e
              | Except.ok vs => Except.ok (v :: vs)

/-- Mirrors fn workspace_members of the source. -/
def workspace_members (env : Env) (metadata : Json) : Except String (List SourceVersion) :=
  match as_array_from_value "workspace_members" metadata with
  | Except.error e => Except.error e
  | Except.ok members => wsFold env members

/-- The roots loop of fn build_dep_tree: look each member package up
(failure aborts), collect its handle, and in omit-deps mode additionally
materialize the member as a root Source with no dependencies. -/
def rootsFold (env : Env) (config : Config) (packages : Packages) :
    List SourceVersion → (List SourceId × DepTree) → Except String (List SourceId × DepTree)
  | [], st => Except.ok st
  | m :: ms, (ids, t) =>
      match package m packages with
      | Except.error e => Except.error e
      | Except.ok member_package =>
          let ids1 := ids ++ [member_package.source_id]
          if config.omit_deps then
            match Source.new env member_package.source_id m member_package.source_paths true config with
            | Except.error e => Except.error e
            | Except.ok s => rootsFold env config packages ms (ids1, t.set_source s [])
          else rootsFold env config packages ms (ids1, t)

/-- The first dependency loop of a resolve node: every dependency entry
must be a string and must parse. -/
def depVersions (env : Env) : List Json → Except String (List SourceVersion)
  | [] => Except.ok []
  | d :: ds =>
      match d.asStr with
      | none => Except.error ("Couldn\x27t find string in dependency:\n" ++ to_string_pretty d)
      | some s =>
          match env.parse_from_id s with
          | Except.error e => Except.error e
          | Except.ok v =>
              match depVersions env ds with
              | Except.error e => Except.error e
              | Except.ok vs => Except.ok (v :: vs)

/-- The second dependency loop of a resolve node: each dependency version
is resolved to the handle of its Package; lookup failure aborts. -/
def depIds (packages : Packages) : List SourceVersion → Except String (List SourceId)
  | [] => Except.ok []
  | v :: vs =>
      match package v packages with
      | Except.error e => Except.error e
      | Except.ok p =>
          match depIds packages vs with
          | Except.error e => Except.error e
          | Except.ok is => Except.ok (p.source_id :: is)

/-- One resolve node of the full-graph phase of fn build_dep_tree: parse
its id, resolve its Package, resolve all dependency handles, flag the node
as root by membership of its handle in the root set, build the Source and
register it with its dependency handles. -/
def processNode (env : Env) (config : Config) (packages : Packages)
    (root_ids : List SourceId) (node : Json) (t : DepTree) : Except String DepTree :=
  match as_str_from_value "id" node with
  | Except.error e => Except.error e
  | Except.ok id =>
  match env.parse_from_id id with
  | Except.error e => Except.error e
  | Except.ok node_version =>
  match package node_version packages with
  | Except.error e => Except.error e
  | Except.ok node_package =>
  match as_array_from_value "dependencies" node with
  | Except.error e => Except.error e
  | Except.ok dependencies =>
  match depVersions env dependencies with
  | Except.error e => Except.error e
  | Except.ok dep_versions =>
  match depIds packages dep_versions with
  | Except.error e => Except.error e
  | Except.ok dep_ids =>
  let is_root := root_ids.contains node_package.source_id
  match Source.new env node_package.source_id node_version node_package.source_paths is_root config with
  | Except.error e => Except.error e
  | Except.ok source => Except.ok (t.set_source source dep_ids)

/-- The fold over the resolve nodes. -/
def processNodes (env : Env) (config : Config) (packages : Packages)
    (root_ids : List SourceId) : List Json → DepTree → Except String DepTree
  | [], t => Except.ok t
  | n :: ns, t =>
      match processNode env config packages root_ids n t with
      | Except.error e => Except.error e
      | Except.ok t1 => processNodes env config packages root_ids ns t1

/-- Mirrors fn build_dep_tree of the source: resolve the workspace members
to root handles (registering root Sources at once in omit-deps mode),
install the root set, and unless omit-deps was configured walk the resolve
node list and register every node. -/
def build_dep_tree (env : Env) (config : Config) (metadata : Json)
    (packages : Packages) (dep_tree : DepTree) : Except String DepTree :=
  match workspace_members env metadata with
  | Except.error e => Except.error e
  | Except.ok members =>
      match rootsFold env config packages members ([], dep_tree) with
      | Except.error e => Except.error e
      | Except.ok (root_ids, t1) =>
          let t2 := t1.set_roots root_ids
          if config.omit_deps then Except.ok t2
          else
            match as_object_from_value "resolve" metadata with
            | Except.error e => Except.error e
            | Except.ok resolve =>
                match as_array_from_object "nodes" resolve with
                | Except.error e => Except.error e
                | Except.ok nodes => processNodes env config packages root_ids nodes t2

/-- Mirrors fn dependency_tree of the source, the overall entry point:
resolve the packages into a fresh tree, build the graph, compute depths. -/
def dependency_tree (env : Env) (config : Config) (metadata : Json) : Except String DepTree :=
  match resolve_packages env config metadata DepTree.new with
  | Except.error e => Except.error e
  | Except.ok (pkgs, t1) =>
      match build_dep_tree env config metadata pkgs t1 with
      | Except.error e => Except.error e
      | Except.ok t2 => Except.ok t2.compute_depths

/-- Builds a target object with the given kind tags and entry path. -/
def mkTarget (kinds : List String) (src : String) : Json :=
  Json.obj [("kind", Json.arr (kinds.map Json.str)), ("src_path", Json.str src)]

/-- Builds a package entry with id, manifest path and targets. -/
def mkPackage (id mpath : String) (targets : List Json) : Json :=
  Json.obj [("id", Json.str id), ("manifest_path", Json.str mpath), ("targets", Json.arr targets)]

/-- Builds a resolve node with id and dependency identifier strings. -/
def mkNode (id : String) (deps : List String) : Json :=
  Json.obj [("id", Json.str id), ("dependencies", Json.arr (deps.map Json.str))]

/-- Builds a whole metadata document. -/
def mkDoc (pkgs : List Json) (members : List String) (nodes : List Json) : Json :=
  Json.obj
    [("packages", Json.arr pkgs),
     ("workspace_members", Json.arr (members.map Json.str)),
     ("resolve", Json.obj [("nodes", Json.arr nodes)])]

/-- A concrete environment: identifier strings parse to themselves, the
given paths are the existing files and directories, the external Source
constructor accepts every node. -/
def envOf (files dirs : List FsPath) : Env :=
  { parse_from_id := fun s => Except.ok s,
    is_file := fun p => files.contains p,
    is_dir := fun p => dirs.contains p,
    source_new_err := fun _ _ _ _ => none }

/-- The full-graph configuration. -/
def cfgFull : Config := { omit_deps := false }

/-- The roots-only configuration. -/
def cfgOmit : Config := { omit_deps := true }

/-- Runs a boolean check inside a successful result, false on error. -/
def okCheck {α : Type} (r : Except String α) (f : α → Bool) : Bool :=
  match r with
  | Except.ok a => f a
  | Except.error _ => false

/-- Runs a boolean check on an error message, false on success. -/
def errCheck {α : Type} (r : Except String α) (f : String → Bool) : Bool :=
  match r with
  | Except.ok _ => false
  | Except.error m => f m

/-- A tree has a dangling edge when some registered node lists a dependency
handle under which no node is registered. -/
def hasDanglingEdge (t : DepTree) : Bool :=
  t.sources.any (fun p => p.2.any (fun d => !(t.sources.any (fun q => q.1.id == d))))

/-- A target whose kind scan skips it entirely: the kind entry is an array
whose elements are all strings of unsupported kind. -/
def kindScanSkips (target : Json) : Bool :=
  match target.get "kind" with
  | some (Json.arr ks) => ks.all (fun k =>
      match k with
      | Json.str s => !(supportedKind s)
      | _ => false)
  | _ => false

/-- The handles allocated to the entries of the resolved package mapping. -/
def pkgIds (packages : Packages) : List SourceId :=
  packages.map (fun q => q.2.source_id)

/-- The handles of a list of member versions resolved through the package
mapping, failing on the first version with no entry. -/
def memberIds (packages : Packages) : List SourceVersion → Except String (List SourceId)
  | [] => Except.ok []
  | m :: ms =>
      match package m packages with
      | Except.error e => Except.error e
      | Except.ok p =>
          match memberIds packages ms with
          | Except.error e => Except.error e
          | Except.ok is => Except.ok (p.source_id :: is)

/-- A workspace of two library packages A and B on disk, A being the sole
workspace member and depending on B; B appears in the package list and in
the dependency edge but has no resolve node of its own. -/
def envW : Env := envOf [] [FsPath.fromString "/w/a", FsPath.fromString "/w/b"]

/-- Metadata for the envW workspace. -/
def docC1 : Json := mkDoc
  [mkPackage "A" "/w/a/Cargo.toml" [mkTarget ["lib"] "src/lib.rs"],
   mkPackage "B" "/w/b/Cargo.toml" [mkTarget ["lib"] "src/lib.rs"]]
  ["A"] [mkNode "A" ["B"]]

/-- Metadata with the single package A, member A, a lone resolve node. -/
def docC2 : Json := mkDoc
  [mkPackage "A" "/w/a/Cargo.toml" [mkTarget ["lib"] "src/lib.rs"]]
  ["A"] [mkNode "A" []]

/-- A package entry whose only target has the unsupported kind
custom-build. -/
def pkgC4 : Json := mkPackage "C" "/w/c/Cargo.toml" [mkTarget ["custom-build"] "build.rs"]

/-- Metadata whose package list holds only the unsupported-kind package,
with no members and no resolve nodes. -/
def docC4 : Json := mkDoc [pkgC4] [] []

/-- A package entry that lacks both manifest_path and targets. -/
def pkgC9 : Json := Json.obj [("id", Json.str "Z")]

/-- Metadata whose package list holds only the field-poor entry. -/
def docC9 : Json := mkDoc [pkgC9] [] []

/-- The directory of package A in the envW workspace. -/
def wAdir : FsPath := ⟨true, ["w", "a"]⟩

/-- The directory of package B in the envW workspace. -/
def wBdir : FsPath := ⟨true, ["w", "b"]⟩

/-- The library package A of the envW workspace. -/
def pkgA : Json := mkPackage "A" "/w/a/Cargo.toml" [mkTarget ["lib"] "src/lib.rs"]

/-- The package mapping the resolver computes for docC1. -/
def pkgsC1 : Packages := [("A", ⟨0, [wAdir, wAdir]⟩), ("B", ⟨2, [wBdir, wBdir]⟩)]

/-- The tree state after resolving docC1. -/
def treeC1r : DepTree := ⟨2, 4, [], [], []⟩

/-- The tree built from docC1 (before depth computation). -/
def treeC1b : DepTree := ⟨2, 4, [(⟨0, "A", [wAdir, wAdir], true⟩, [2])], [0], []⟩

/-- A mid-iteration mapping holding A with one recorded path. -/
def pkgsC2w : Packages := [("A", ⟨0, [wAdir]⟩)]

/-- A mid-iteration tree with one allocated handle. -/
def treeC2w : DepTree := ⟨1, 1, [], [], []⟩

/-- A library package whose manifest directory does not exist on disk. -/
def pkgBadDir : Json := mkPackage "D" "/w/d/Cargo.toml" [mkTarget ["lib"] "src/lib.rs"]

/-- A workspace where only the source directory of package E exists; the
build-output directory /x/p/target does not. -/
def envC6 : Env := envOf [⟨true, ["x", "p", "src", "lib.rs"]⟩] [⟨true, ["x", "p", "src"]⟩]

/-- A package with an absolute entry path pointing into envC6. -/
def pkgE : Json := mkPackage "E" "/x/p/Cargo.toml" [mkTarget ["lib"] "/x/p/src/lib.rs"]

/-- The package mapping the resolver computes for docC2. -/
def pkgsC5w : Packages := [("A", ⟨0, [wAdir, wAdir]⟩)]

/-- The tree state after resolving docC2. -/
def treeC5r : DepTree := ⟨1, 2, [], [], []⟩

/-- The tree built from docC2 in omit-deps mode. -/
def treeC5b : DepTree := ⟨1, 2, [(⟨0, "A", [wAdir, wAdir], true⟩, [])], [0], []⟩

/-- A package declaring an unsupported target before a lib and a bin
target. -/
def pkgMulti : Json := mkPackage "M" "/w/a/Cargo.toml"
  [mkTarget ["custom-build"] "build.rs", mkTarget ["lib"] "src/lib.rs",
   mkTarget ["bin"] "src/main.rs"]

/-- A package entry with id and targets but no manifest_path. -/
def pkgC9w : Json := Json.obj [("id", Json.str "Z"), ("targets", Json.arr [])]

/-- Metadata whose only package entry lacks manifest_path. -/
def docC9w : Json := mkDoc [pkgC9w] [] []

-- ===================== THEOREMS =====================

/-- Claim C1, counterexample: on the envW workspace the construction
succeeds, yet the registered node for A lists dependency handle 2 (the
handle of B in the package mapping) and no node is registered under 2,
because B has no resolve node. The dependency lookup into the resolved
package mapping does not guarantee that every referenced handle exists as
a registered node, refuting the claim as stated. -/
theorem C1_counterexample :
    okCheck (dependency_tree envW cfgFull docC1) hasDanglingEdge = true := by
  rfl

/-- Claim C2, counterexample: the document has a single Identity A, sighted
in both resolution modes. If new_source were invoked only on the first
sighting, the allocator of the returned tree would stand at 1; it stands
at 2 while the mapping has a single entry, so new_source was invoked on
the subsequent sighting as well (the or_insert argument is evaluated
eagerly). -/
theorem C2_counterexample :
    okCheck (resolve_packages envW cfgFull docC2 DepTree.new)
      (fun st => st.1.length == 1 && st.2.next_id == 2) = true := by
  rfl

/-- Claim C4, counterexample: the package whose only target has kind
custom-build resolves under neither the primary nor the build-output mode,
yet the whole construction succeeds instead of failing with a hard error. -/
theorem C4_counterexample :
    source_path envW cfgFull pkgC4 false = Except.ok none ∧
    source_path envW cfgFull pkgC4 true = Except.ok none ∧
    okCheck (dependency_tree envW cfgFull docC4) (fun _ => true) = true :=
  ⟨rfl, rfl, rfl⟩

/-- Claim C9, counterexample: the entry lacks manifest_path, but the
targets array is fetched first, so construction fails with a message
naming targets and not manifest_path, refuting the claim that every
missing-manifest_path entry yields an error naming manifest_path. -/
theorem C9_counterexample :
    errCheck (dependency_tree envW cfgFull docC9)
      (fun m => rustContains m "targets" && !(rustContains m "manifest_path")) = true := by
  rfl

/-- A kind list of all-unsupported strings makes the kind scan fall
through without a verdict. -/
theorem scanKinds_all_unsupported (env : Env) (config : Config) (pkg target : Json)
    (mdir : FsPath) (dot : Bool) (ks : List Json)
    (h : ∀ k ∈ ks, ∃ s, k = Json.str s ∧ supportedKind s = false) :
    scanKinds env config pkg target mdir dot ks = Except.ok none := by
  induction ks with
  | nil => rfl
  | cons k ks ih =>
      obtain ⟨s, hk, hs⟩ := h k (List.mem_cons_self k ks)
      subst hk
      simp only [scanKinds, Json.asStr, hs]
      exact ih (fun k hk => h k (List.mem_cons_of_mem _ hk))

/-- A target the kind scan skips contributes nothing to the target scan. -/
theorem scanTargets_skip (env : Env) (config : Config) (pkg : Json)
    (mdir : FsPath) (dot : Bool) (u : Json) (rest : List Json)
    (h : kindScanSkips u = true) :
    scanTargets env config pkg mdir dot (u :: rest) =
      scanTargets env config pkg mdir dot rest := by
  unfold kindScanSkips at h
  cases hg : u.get "kind" with
  | none => rw [hg] at h; exact absurd h (by simp)
  | some kv =>
      rw [hg] at h
      cases kv with
      | arr ks =>
          have hks : ∀ k ∈ ks, ∃ s, k = Json.str s ∧ supportedKind s = false := by
            intro k hk
            have := (List.all_eq_true.mp h) k hk
            cases k with
            | str s => exact ⟨s, rfl, by simpa using this⟩
            | null => simp at this
            | bool b => simp at this
            | num n => simp at this
            | arr a => simp at this
            | obj o => simp at this
          have harr : as_array_from_value "kind" u = Except.ok ks := by
            unfold as_array_from_value
            rw [hg]
            rfl
          simp only [scanTargets, harr,
            scanKinds_all_unsupported env config pkg u mdir dot ks hks]
      | null => simp at h
      | bool b => simp at h
      | num n => simp at h
      | str s => simp at h
      | obj o => simp at h

/-- A prefix of skipped targets contributes nothing to the target scan. -/
theorem scanTargets_skip_many (env : Env) (config : Config) (pkg : Json)
    (mdir : FsPath) (dot : Bool) (pre rest : List Json)
    (h : ∀ u ∈ pre, kindScanSkips u = true) :
    scanTargets env config pkg mdir dot (pre ++ rest) =
      scanTargets env config pkg mdir dot rest := by
  induction pre with
  | nil => rfl
  | cons u pre ih =>
      rw [List.cons_append,
        scanTargets_skip env config pkg mdir dot u (pre ++ rest)
          (h u (List.mem_cons_self u pre))]
      exact ih (fun v hv => h v (List.mem_cons_of_mem _ hv))

/-- Reaching the first supported kind hands the whole kind scan over to
the candidate resolution. -/
theorem scanKinds_first_supported (env : Env) (config : Config) (pkg target : Json)
    (mdir : FsPath) (dot : Bool) (ks1 ks2 : List Json) (k : String)
    (h1 : ∀ j ∈ ks1, ∃ s, j = Json.str s ∧ supportedKind s = false)
    (hk : supportedKind k = true) :
    scanKinds env config pkg target mdir dot (ks1 ++ Json.str k :: ks2) =
      match resolveSupported env config pkg target mdir dot with
      | Except.error e => Except.error e
      | Except.ok r => Except.ok (some r) := by
  induction ks1 with
  | nil =>
      simp only [List.nil_append, scanKinds, Json.asStr, hk]
      rfl
  | cons j js ih =>
      obtain ⟨s, hj, hs⟩ := h1 j (List.mem_cons_self j js)
      subst hj
      rw [List.cons_append]
      simp only [scanKinds, Json.asStr, hs]
      exact ih (fun j hj => h1 j (List.mem_cons_of_mem _ hj))

/-- Under a well-formed manifest and a target list whose first
supported-kind target is the given one, source_path is exactly the
candidate resolution of that target, whatever targets follow it. -/
theorem source_path_first_supported (env : Env) (config : Config) (pkg target : Json)
    (pre rest ks1 ks2 : List Json) (k mp : String) (mdir : FsPath) (dot : Bool)
    (ht : as_array_from_value "targets" pkg = Except.ok (pre ++ target :: rest))
    (hpre : ∀ u ∈ pre, kindScanSkips u = true)
    (hm : as_str_from_value "manifest_path" pkg = Except.ok mp)
    (hmd : (FsPath.fromString mp).parent = some mdir)
    (hka : as_array_from_value "kind" target = Except.ok (ks1 ++ Json.str k :: ks2))
    (h1 : ∀ j ∈ ks1, ∃ s, j = Json.str s ∧ supportedKind s = false)
    (hk : supportedKind k = true) :
    source_path env config pkg dot = resolveSupported env config pkg target mdir dot := by
  simp only [source_path, ht, hm, hmd]
  rw [scanTargets_skip_many env config pkg mdir dot pre (target :: rest) hpre]
  simp only [scanTargets, hka,
    scanKinds_first_supported env config pkg target mdir dot ks1 ks2 k h1 hk]
  cases resolveSupported env config pkg target mdir dot with
  | error e => rfl
  | ok r => rfl

/-- A parent path keeps the absolute flag. -/
theorem FsPath.parent_abs (p q : FsPath) (h : p.parent = some q) : q.abs = p.abs := by
  cases p with
  | mk a comps =>
      cases comps with
      | nil => simp [FsPath.parent] at h
      | cons c cs =>
          simp only [FsPath.parent, Option.some.injEq] at h
          rw [← h]

/-- Unfolds the lookup over a cons cell. -/
theorem lookupPkg_cons (q : SourceVersion × Package) (pkgs : Packages) (v : SourceVersion) :
    lookupPkg (q :: pkgs) v = cond (q.1 == v) (some q.2) (lookupPkg pkgs v) := by
  unfold lookupPkg
  simp only [List.find?]
  cases hq : (q.1 == v) with
  | true => rfl
  | false => rfl

/-- Unfolds the path append over a cons cell. -/
theorem appendPath_cons (q : SourceVersion × Package) (pkgs : Packages)
    (v : SourceVersion) (p : FsPath) :
    appendPath (q :: pkgs) v p =
      (cond (q.1 == v)
        (q.1, { source_id := q.2.source_id, source_paths := q.2.source_paths ++ [p] })
        q) :: appendPath pkgs v p := by
  simp only [appendPath, List.map_cons]
  cases hq : (q.1 == v) with
  | true => simp [hq]
  | false => simp [hq]

/-- Appending a fresh entry makes it the one the lookup finds. -/
theorem lookupPkg_append_fresh (pkgs : Packages) (v : SourceVersion) (P : Package)
    (h : lookupPkg pkgs v = none) :
    lookupPkg (pkgs ++ [(v, P)]) v = some P := by
  induction pkgs with
  | nil => simp [lookupPkg, List.find?]
  | cons q pkgs ih =>
      rw [lookupPkg_cons] at h
      cases hq : (q.1 == v) with
      | true => rw [hq] at h; simp at h
      | false =>
          rw [hq] at h
          simp only [Bool.cond_false] at h
          rw [List.cons_append, lookupPkg_cons, hq, Bool.cond_false]
          exact ih h

/-- Appending a path to a version that is absent from the mapping leaves
all old entries alone and only extends the appended entry. -/
theorem appendPath_append_fresh (pkgs : Packages) (v : SourceVersion) (P : Package) (p : FsPath)
    (h : lookupPkg pkgs v = none) :
    appendPath (pkgs ++ [(v, P)]) v p =
      pkgs ++ [(v, { source_id := P.source_id, source_paths := P.source_paths ++ [p] })] := by
  induction pkgs with
  | nil => simp [appendPath]
  | cons q pkgs ih =>
      rw [lookupPkg_cons] at h
      cases hq : (q.1 == v) with
      | true => rw [hq] at h; simp at h
      | false =>
          rw [hq] at h
          simp only [Bool.cond_false] at h
          rw [List.cons_append, appendPath_cons, hq, Bool.cond_false, List.cons_append, ih h]

/-- When the lookup already finds an entry, appending a path updates that
entry in place, keeping its handle. -/
theorem lookupPkg_appendPath (pkgs : Packages) (v : SourceVersion) (P : Package) (p : FsPath)
    (h : lookupPkg pkgs v = some P) :
    lookupPkg (appendPath pkgs v p) v =
      some { source_id := P.source_id, source_paths := P.source_paths ++ [p] } := by
  induction pkgs with
  | nil => simp [lookupPkg, List.find?] at h
  | cons q pkgs ih =>
      rw [lookupPkg_cons] at h
      rw [appendPath_cons, lookupPkg_cons]
      cases hq : (q.1 == v) with
      | true =>
          rw [hq] at h
          simp only [Bool.cond_true, Option.some.injEq] at h
          simp [hq, ← h]
      | false =>
          rw [hq] at h
          simp only [Bool.cond_false] at h
          simp [hq, ih h]

/-- Claim C2 (corrected): once an Identity already has a Package in the
mapping, a further resolved sighting appends the directory to that
Package, which keeps its original handle — but new_source is still
invoked, advancing the allocator of the tree by one (the or_insert
argument of the source is evaluated eagerly), rather than not allocating
at all as the claim states. -/
theorem C2_theorem (env : Env) (config : Config) (pkg : Json) (id v : String)
    (P : Package) (p : FsPath) (pkgs : Packages) (t : DepTree) (dot : Bool)
    (hparse : env.parse_from_id id = Except.ok v)
    (hpath : source_path env config pkg dot = Except.ok (some p))
    (hmem : lookupPkg pkgs v = some P) :
    resolve_one_mode env config pkg id dot (pkgs, t) =
      Except.ok (appendPath pkgs v p, { t with next_id := t.next_id + 1 }) ∧
    lookupPkg (appendPath pkgs v p) v =
      some { source_id := P.source_id, source_paths := P.source_paths ++ [p] } := by
  constructor
  · simp only [resolve_one_mode, hparse, hpath, hmem, DepTree.new_source]
  · exact lookupPkg_appendPath pkgs v P p hmem

/-- Claim C3 (confirmed): a schema-well-formed package entry none of whose
targets carries a supported kind resolves to absent in both modes without
an error, and the whole per-entry resolution leaves the mapping and the
tree untouched, so the package is simply absent from the graph. -/
theorem C3_theorem (env : Env) (config : Config) (pkg : Json) (ts : List Json)
    (id v mp : String) (mdir : FsPath) (st : Packages × DepTree)
    (hid : as_str_from_value "id" pkg = Except.ok id)
    (hparse : env.parse_from_id id = Except.ok v)
    (ht : as_array_from_value "targets" pkg = Except.ok ts)
    (hm : as_str_from_value "manifest_path" pkg = Except.ok mp)
    (hmd : (FsPath.fromString mp).parent = some mdir)
    (hall : ∀ u ∈ ts, kindScanSkips u = true) :
    source_path env config pkg false = Except.ok none ∧
    source_path env config pkg true = Except.ok none ∧
    resolve_package_entry env config pkg st = Except.ok st := by
  have hsp : ∀ dot, source_path env config pkg dot = Except.ok none := by
    intro dot
    have hskip := scanTargets_skip_many env config pkg mdir dot ts [] hall
    rw [List.append_nil] at hskip
    simp only [source_path, ht, hm, hmd, hskip, scanTargets]
  refine ⟨hsp false, hsp true, ?_⟩
  simp only [resolve_package_entry, hid, resolve_one_mode, hparse, hsp false, hsp true]

/-- Claim C7 (confirmed): when the first target carrying a supported kind
yields a validated candidate directory, source_path returns exactly that
directory, and the targets after it (rest is universally quantified and
absent from the conclusion) are never examined. -/
theorem C7_theorem (env : Env) (config : Config) (pkg target : Json)
    (pre rest ks1 ks2 : List Json) (k mp : String) (mdir cand : FsPath) (dot : Bool)
    (ht : as_array_from_value "targets" pkg = Except.ok (pre ++ target :: rest))
    (hpre : ∀ u ∈ pre, kindScanSkips u = true)
    (hm : as_str_from_value "manifest_path" pkg = Except.ok mp)
    (hmd : (FsPath.fromString mp).parent = some mdir)
    (hka : as_array_from_value "kind" target = Except.ok (ks1 ++ Json.str k :: ks2))
    (h1 : ∀ j ∈ ks1, ∃ s, j = Json.str s ∧ supportedKind s = false)
    (hk : supportedKind k = true)
    (hres : resolveSupported env config pkg target mdir dot = Except.ok (some cand)) :
    source_path env config pkg dot = Except.ok (some cand) := by
  rw [source_path_first_supported env config pkg target pre rest ks1 ks2 k mp mdir dot
    ht hpre hm hmd hka h1 hk, hres]

/-- Claim C6 (confirmed): for a package whose first supported target has
an absolute entry path that is an existing file, the build-output
candidate is the grandparent directory of the entry file joined with the
fixed subdirectory target; when that candidate is not an existing
directory the mode resolves to absent instead of failing. -/
theorem C6_theorem (env : Env) (config : Config) (pkg target : Json)
    (pre rest ks1 ks2 : List Json) (k mp s : String) (mdir d gp : FsPath)
    (ht : as_array_from_value "targets" pkg = Except.ok (pre ++ target :: rest))
    (hpre : ∀ u ∈ pre, kindScanSkips u = true)
    (hm : as_str_from_value "manifest_path" pkg = Except.ok mp)
    (hmd : (FsPath.fromString mp).parent = some mdir)
    (hka : as_array_from_value "kind" target = Except.ok (ks1 ++ Json.str k :: ks2))
    (h1 : ∀ j ∈ ks1, ∃ s2, j = Json.str s2 ∧ supportedKind s2 = false)
    (hk : supportedKind k = true)
    (hs : as_str_from_value "src_path" target = Except.ok s)
    (habs : (FsPath.fromString s).abs = true)
    (hfile : env.is_file (FsPath.fromString s) = true)
    (hd : (FsPath.fromString s).parent = some d)
    (hgp : d.parent = some gp) :
    source_path env config pkg true =
      Except.ok (if env.is_dir (gp.join "target") then some (gp.join "target") else none) := by
  rw [source_path_first_supported env config pkg target pre rest ks1 ks2 k mp mdir true
    ht hpre hm hmd hka h1 hk]
  have hgabs : gp.abs = true := by
    rw [FsPath.parent_abs d gp hgp, FsPath.parent_abs (FsPath.fromString s) d hd, habs]
  simp only [resolveSupported, hs, FsPath.isAbsolute, habs, hfile, Bool.and_self, if_true,
    hd, hgp, FsPath.isRelative, FsPath.join, hgabs, Bool.not_true]
  cases hdir : env.is_dir ⟨true, gp.comps ++ ["target"]⟩ with
  | true => simp [hdir]
  | false => simp [hdir]

/-- Claim C10 (confirmed): a package whose first supported target has a
relative entry path resolves to the manifest directory in both modes, so
its Package records that directory twice; the two sightings also advance
the allocator twice while only the first allocated handle is kept. -/
theorem C10_theorem (env : Env) (config : Config) (pkg target : Json)
    (pre rest ks1 ks2 : List Json) (k mp s id v : String) (mdir : FsPath)
    (pkgs : Packages) (t : DepTree)
    (hid : as_str_from_value "id" pkg = Except.ok id)
    (hparse : env.parse_from_id id = Except.ok v)
    (hfresh : lookupPkg pkgs v = none)
    (ht : as_array_from_value "targets" pkg = Except.ok (pre ++ target :: rest))
    (hpre : ∀ u ∈ pre, kindScanSkips u = true)
    (hm : as_str_from_value "manifest_path" pkg = Except.ok mp)
    (hmd : (FsPath.fromString mp).parent = some mdir)
    (hka : as_array_from_value "kind" target = Except.ok (ks1 ++ Json.str k :: ks2))
    (h1 : ∀ j ∈ ks1, ∃ s2, j = Json.str s2 ∧ supportedKind s2 = false)
    (hk : supportedKind k = true)
    (hs : as_str_from_value "src_path" target = Except.ok s)
    (hrel : (FsPath.fromString s).abs = false)
    (hdir : env.is_dir mdir = true) :
    source_path env config pkg false = Except.ok (some mdir) ∧
    source_path env config pkg true = Except.ok (some mdir) ∧
    resolve_package_entry env config pkg (pkgs, t) =
      Except.ok (pkgs ++ [(v, { source_id := t.next_id, source_paths := [mdir, mdir] })],
        { t with next_id := t.next_id + 2 }) := by
  have hsp : ∀ dot, source_path env config pkg dot = Except.ok (some mdir) := by
    intro dot
    rw [source_path_first_supported env config pkg target pre rest ks1 ks2 k mp mdir dot
      ht hpre hm hmd hka h1 hk]
    simp only [resolveSupported, hs, FsPath.isAbsolute, hrel, Bool.false_and,
      FsPath.isRelative, Bool.not_false]
    simp [hdir, hrel]
  refine ⟨hsp false, hsp true, ?_⟩
  simp only [resolve_package_entry, hid, resolve_one_mode, hparse, hsp false, hsp true,
    DepTree.new_source, hfresh]
  rw [lookupPkg_append_fresh pkgs v _ hfresh,
    appendPath_append_fresh pkgs v _ mdir hfresh]
  simp

/-- Claim C4 (corrected, positive part): with a well-formed id that
parses, a hard primary-mode resolution error aborts the per-entry
resolution with that very error, while a package that resolves in the
primary mode and merely fails the build-output mode completes the
per-entry resolution successfully. -/
theorem C4_theorem :
    (∀ (env : Env) (config : Config) (pkg : Json) (id v e : String) (st : Packages × DepTree),
      as_str_from_value "id" pkg = Except.ok id →
      env.parse_from_id id = Except.ok v →
      source_path env config pkg false = Except.error e →
      resolve_package_entry env config pkg st = Except.error e) ∧
    (∀ (env : Env) (config : Config) (pkg : Json) (id v : String) (p : FsPath)
        (st : Packages × DepTree),
      as_str_from_value "id" pkg = Except.ok id →
      env.parse_from_id id = Except.ok v →
      source_path env config pkg false = Except.ok (some p) →
      source_path env config pkg true = Except.ok none →
      okCheck (resolve_package_entry env config pkg st) (fun _ => true) = true) := by
  constructor
  · intro env config pkg id v e st hid hparse herr
    simp only [resolve_package_entry, hid, resolve_one_mode, hparse, herr]
  · intro env config pkg id v p st hid hparse hp hn
    simp only [resolve_package_entry, hid, resolve_one_mode, hparse, hp, hn]
    cases hl : lookupPkg st.1 v with
    | some P => simp [okCheck, hl]
    | none => simp [okCheck, hl]

/-- A successful package lookup returns the handle of a mapping entry. -/
theorem package_ok_mem (v : SourceVersion) (pkgs : Packages) (P : Package)
    (h : package v pkgs = Except.ok P) : P.source_id ∈ pkgIds pkgs := by
  unfold package at h
  cases hl : lookupPkg pkgs v with
  | none => rw [hl] at h; simp at h
  | some Q =>
      rw [hl] at h
      simp only [Except.ok.injEq] at h
      subst h
      unfold lookupPkg at hl
      cases hf : List.find? (fun q => q.1 == v) pkgs with
      | none => rw [hf] at hl; simp at hl
      | some q =>
          rw [hf] at hl
          simp only [Option.some.injEq] at hl
          subst hl
          exact List.mem_map_of_mem _ (List.mem_of_find?_eq_some hf)

/-- Every handle produced by the dependency-handle loop belongs to the
resolved package mapping. -/
theorem depIds_mem (pkgs : Packages) (vs : List SourceVersion) (ids : List SourceId)
    (h : depIds pkgs vs = Except.ok ids) : ∀ d ∈ ids, d ∈ pkgIds pkgs := by
  induction vs generalizing ids with
  | nil =>
      unfold depIds at h
      simp only [Except.ok.injEq] at h
      subst h
      intro d hd
      simp at hd
  | cons v vs ih =>
      unfold depIds at h
      cases hp : package v pkgs with
      | error e => rw [hp] at h; simp at h
      | ok P =>
          rw [hp] at h
          cases hrest : depIds pkgs vs with
          | error e => rw [hrest] at h; simp at h
          | ok is2 =>
              rw [hrest] at h
              simp only [Except.ok.injEq] at h
              subst h
              intro d hd
              rcases List.mem_cons.mp hd with h1 | h2
              · subst h1; exact package_ok_mem v pkgs P hp
              · exact ih is2 hrest d h2

/-- Inversion of one node registration: exactly one node is appended, its
root flag is membership of its handle in the root set, all its dependency
handles come from the package mapping, and the other tree fields are
untouched. -/
theorem processNode_sources (env : Env) (config : Config) (pkgs : Packages)
    (root_ids : List SourceId) (node : Json) (t t2 : DepTree)
    (h : processNode env config pkgs root_ids node t = Except.ok t2) :
    ∃ s ds, t2.sources = t.sources ++ [(s, ds)] ∧
      s.is_root = root_ids.contains s.id ∧
      (∀ d ∈ ds, d ∈ pkgIds pkgs) ∧
      t2.roots = t.roots ∧ t2.next_id = t.next_id ∧
      t2.reserved = t.reserved ∧ t2.depths = t.depths := by
  unfold processNode at h
  cases h1 : as_str_from_value "id" node with
  | error e => simp only [h1] at h; exact Except.noConfusion h
  | ok id =>
  simp only [h1] at h
  cases h2 : env.parse_from_id id with
  | error e => simp only [h2] at h; exact Except.noConfusion h
  | ok node_version =>
  simp only [h2] at h
  cases h3 : package node_version pkgs with
  | error e => simp only [h3] at h; exact Except.noConfusion h
  | ok node_package =>
  simp only [h3] at h
  cases h4 : as_array_from_value "dependencies" node with
  | error e => simp only [h4] at h; exact Except.noConfusion h
  | ok dependencies =>
  simp only [h4] at h
  cases h5 : depVersions env dependencies with
  | error e => simp only [h5] at h; exact Except.noConfusion h
  | ok dep_versions =>
  simp only [h5] at h
  cases h6 : depIds pkgs dep_versions with
  | error e => simp only [h6] at h; exact Except.noConfusion h
  | ok dep_ids =>
  simp only [h6, Source.new] at h
  cases h7 : env.source_new_err node_package.source_id node_version node_package.source_paths
      (root_ids.contains node_package.source_id) with
  | some e => simp only [h7] at h; exact Except.noConfusion h
  | none =>
  simp only [h7, Except.ok.injEq] at h
  subst h
  exact ⟨_, dep_ids, rfl, rfl, depIds_mem pkgs dep_versions dep_ids h6, rfl, rfl, rfl, rfl⟩

/-- Inversion of the resolve-node fold: every registered node either was
already there or carries a root flag equal to root-set membership of its
handle and dependency handles from the package mapping; roots are
untouched. -/
theorem processNodes_sources (env : Env) (config : Config) (pkgs : Packages)
    (root_ids : List SourceId) :
    ∀ (nodes : List Json) (t t2 : DepTree),
    processNodes env config pkgs root_ids nodes t = Except.ok t2 →
    (∀ p ∈ t2.sources, p ∈ t.sources ∨
      (p.1.is_root = root_ids.contains p.1.id ∧ ∀ d ∈ p.2, d ∈ pkgIds pkgs)) ∧
    t2.roots = t.roots := by
  intro nodes
  induction nodes with
  | nil =>
      intro t t2 h
      unfold processNodes at h
      simp only [Except.ok.injEq] at h
      subst h
      exact ⟨fun p hp => Or.inl hp, rfl⟩
  | cons n ns ih =>
      intro t t2 h
      unfold processNodes at h
      cases h1 : processNode env config pkgs root_ids n t with
      | error e => rw [h1] at h; simp at h
      | ok tmid =>
          rw [h1] at h
          obtain ⟨s, ds, hsrcs, hflag, hdeps, hroots, _, _, _⟩ :=
            processNode_sources env config pkgs root_ids n t tmid h1
          obtain ⟨hall, hroots2⟩ := ih tmid t2 h
          refine ⟨?_, hroots2.trans hroots⟩
          intro p hp
          rcases hall p hp with hin | hprop
          · rw [hsrcs] at hin
            rcases List.mem_append.mp hin with hl | hr
            · exact Or.inl hl
            · rcases List.mem_singleton.mp hr with rfl
              exact Or.inr ⟨hflag, hdeps⟩
          · exact Or.inr hprop

/-- Inversion of the roots loop: the collected handles extend the
accumulator by exactly the member handles (also computable by memberIds),
the roots and depths of the tree are untouched, and any source the loop
added is a root-flagged, dependency-free node whose handle is collected. -/
theorem rootsFold_inv (env : Env) (config : Config) (pkgs : Packages) :
    ∀ (ms : List SourceVersion) (ids : List SourceId) (t : DepTree)
      (ids2 : List SourceId) (t2 : DepTree),
    rootsFold env config pkgs ms (ids, t) = Except.ok (ids2, t2) →
    (∃ tail, ids2 = ids ++ tail ∧ memberIds pkgs ms = Except.ok tail) ∧
    t2.roots = t.roots ∧ t2.depths = t.depths ∧
    (∀ p ∈ t2.sources, p ∈ t.sources ∨ (p.1.is_root = true ∧ p.2 = [] ∧ p.1.id ∈ ids2)) := by
  intro ms
  induction ms with
  | nil =>
      intro ids t ids2 t2 h
      unfold rootsFold at h
      simp only [Except.ok.injEq, Prod.mk.injEq] at h
      obtain ⟨hids, ht⟩ := h
      subst hids
      subst ht
      exact ⟨⟨[], (List.append_nil ids).symm, rfl⟩, rfl, rfl, fun p hp => Or.inl hp⟩
  | cons m ms ih =>
      intro ids t ids2 t2 h
      unfold rootsFold at h
      cases hp : package m pkgs with
      | error e => simp only [hp] at h; exact Except.noConfusion h
      | ok P =>
          simp only [hp] at h
          cases hc : config.omit_deps with
          | false =>
              rw [hc] at h
              simp only [Bool.false_eq_true, if_false] at h
              obtain ⟨⟨tail, htail, hmi⟩, hroots, hdepths, hsrcs⟩ :=
                ih (ids ++ [P.source_id]) t ids2 t2 h
              refine ⟨⟨P.source_id :: tail, ?_, ?_⟩, hroots, hdepths, ?_⟩
              · rw [htail, List.append_assoc]; rfl
              · unfold memberIds; rw [hp, hmi]
              · intro p hps
                rcases hsrcs p hps with hin | hprop
                · exact Or.inl hin
                · exact Or.inr hprop
          | true =>
              rw [hc] at h
              simp only [if_true] at h
              simp only [Source.new] at h
              cases hn : env.source_new_err P.source_id m P.source_paths true with
              | some e => simp only [hn] at h; exact Except.noConfusion h
              | none =>
                  simp only [hn] at h
                  obtain ⟨⟨tail, htail, hmi⟩, hroots, hdepths, hsrcs⟩ :=
                    ih (ids ++ [P.source_id])
                      (t.set_source ⟨P.source_id, m, P.source_paths, true⟩ []) ids2 t2 h
                  refine ⟨⟨P.source_id :: tail, ?_, ?_⟩, hroots, hdepths, ?_⟩
                  · rw [htail, List.append_assoc]; rfl
                  · unfold memberIds; rw [hp, hmi]
                  · intro p hps
                    rcases hsrcs p hps with hin | hprop
                    · rcases List.mem_append.mp hin with hl | hr
                      · exact Or.inl hl
                      · rcases List.mem_singleton.mp hr with rfl
                        refine Or.inr ⟨rfl, rfl, ?_⟩
                        rw [htail]
                        exact List.mem_append.mpr (Or.inl (List.mem_append.mpr (Or.inr (by simp))))
                    · exact Or.inr hprop

/-- In omit-deps mode the roots loop registers exactly one root-flagged,
dependency-free source per member, in member order, collecting exactly
their handles. -/
theorem rootsFold_omit_inv (env : Env) (config : Config) (pkgs : Packages)
    (homit : config.omit_deps = true) :
    ∀ (ms : List SourceVersion) (ids : List SourceId) (t : DepTree)
      (ids2 : List SourceId) (t2 : DepTree),
    rootsFold env config pkgs ms (ids, t) = Except.ok (ids2, t2) →
    ∃ srcs, t2.sources = t.sources ++ srcs ∧
      srcs.map (fun p => p.1.version) = ms ∧
      ids2 = ids ++ srcs.map (fun p => p.1.id) ∧
      (∀ p ∈ srcs, p.1.is_root = true ∧ p.2 = []) ∧
      t2.roots = t.roots ∧ t2.depths = t.depths := by
  intro ms
  induction ms with
  | nil =>
      intro ids t ids2 t2 h
      unfold rootsFold at h
      simp only [Except.ok.injEq, Prod.mk.injEq] at h
      obtain ⟨hids, ht⟩ := h
      subst hids
      subst ht
      exact ⟨[], by simp, rfl, by simp, by simp, rfl, rfl⟩
  | cons m ms ih =>
      intro ids t ids2 t2 h
      unfold rootsFold at h
      cases hp : package m pkgs with
      | error e => simp only [hp] at h; exact Except.noConfusion h
      | ok P =>
          simp only [hp, homit, if_true, Source.new] at h
          cases hn : env.source_new_err P.source_id m P.source_paths true with
          | some e => simp only [hn] at h; exact Except.noConfusion h
          | none =>
              simp only [hn] at h
              obtain ⟨srcs, hsources, hver, hids, hflags, hroots, hdepths⟩ :=
                ih (ids ++ [P.source_id])
                  (t.set_source ⟨P.source_id, m, P.source_paths, true⟩ []) ids2 t2 h
              refine ⟨(⟨P.source_id, m, P.source_paths, true⟩, ([] : List SourceId)) :: srcs,
                ?_, ?_, ?_, ?_, hroots, hdepths⟩
              · rw [hsources]
                simp [DepTree.set_source]
              · simp [hver]
              · rw [hids, List.append_assoc]; rfl
              · intro p hp2
                rcases List.mem_cons.mp hp2 with rfl | hrest
                · exact ⟨rfl, rfl⟩
                · exact hflags p hrest

/-- With omit-deps off, the roots loop never touches the tree. -/
theorem rootsFold_full (env : Env) (config : Config) (pkgs : Packages)
    (homit : config.omit_deps = false) :
    ∀ (ms : List SourceVersion) (ids : List SourceId) (t : DepTree)
      (ids2 : List SourceId) (t2 : DepTree),
    rootsFold env config pkgs ms (ids, t) = Except.ok (ids2, t2) → t2 = t := by
  intro ms
  induction ms with
  | nil =>
      intro ids t ids2 t2 h
      unfold rootsFold at h
      simp only [Except.ok.injEq, Prod.mk.injEq] at h
      exact h.2.symm
  | cons m ms ih =>
      intro ids t ids2 t2 h
      unfold rootsFold at h
      cases hp : package m pkgs with
      | error e => simp only [hp] at h; exact Except.noConfusion h
      | ok P =>
          simp only [hp, homit, Bool.false_eq_true, if_false] at h
          exact ih (ids ++ [P.source_id]) t ids2 t2 h

/-- One resolution mode never touches the sources, roots or depths of the
tree; only the allocator may advance. -/
theorem resolve_one_mode_tree (env : Env) (config : Config) (pkg : Json) (id : String)
    (dot : Bool) (st st2 : Packages × DepTree)
    (h : resolve_one_mode env config pkg id dot st = Except.ok st2) :
    st2.2.sources = st.2.sources ∧ st2.2.roots = st.2.roots ∧ st2.2.depths = st.2.depths := by
  unfold resolve_one_mode at h
  cases h1 : env.parse_from_id id with
  | error e => simp only [h1] at h; exact Except.noConfusion h
  | ok v =>
  simp only [h1] at h
  cases h2 : source_path env config pkg dot with
  | error e => simp only [h2] at h; exact Except.noConfusion h
  | ok r =>
  cases r with
  | none =>
      simp only [h2, Except.ok.injEq] at h
      subst h
      exact ⟨rfl, rfl, rfl⟩
  | some p =>
      simp only [h2, DepTree.new_source] at h
      cases h3 : lookupPkg st.1 v with
      | some P =>
          simp only [h3, Except.ok.injEq] at h
          subst h
          exact ⟨rfl, rfl, rfl⟩
      | none =>
          simp only [h3, Except.ok.injEq] at h
          subst h
          exact ⟨rfl, rfl, rfl⟩

/-- One package entry never touches the sources, roots or depths of the
tree. -/
theorem resolve_package_entry_tree (env : Env) (config : Config) (pkg : Json)
    (st st2 : Packages × DepTree)
    (h : resolve_package_entry env config pkg st = Except.ok st2) :
    st2.2.sources = st.2.sources ∧ st2.2.roots = st.2.roots ∧ st2.2.depths = st.2.depths := by
  unfold resolve_package_entry at h
  cases h1 : as_str_from_value "id" pkg with
  | error e => simp only [h1] at h; exact Except.noConfusion h
  | ok id =>
  simp only [h1] at h
  cases h2 : resolve_one_mode env config pkg id false st with
  | error e => simp only [h2] at h; exact Except.noConfusion h
  | ok st1 =>
  simp only [h2] at h
  obtain ⟨a1, b1, c1⟩ := resolve_one_mode_tree env config pkg id false st st1 h2
  obtain ⟨a2, b2, c2⟩ := resolve_one_mode_tree env config pkg id true st1 st2 h
  exact ⟨a2.trans a1, b2.trans b1, c2.trans c1⟩

/-- The package-list fold never touches the sources, roots or depths of
the tree. -/
theorem packagesFold_tree (env : Env) (config : Config) :
    ∀ (ps : List Json) (st st2 : Packages × DepTree),
    packagesFold env config ps st = Except.ok st2 →
    st2.2.sources = st.2.sources ∧ st2.2.roots = st.2.roots ∧ st2.2.depths = st.2.depths := by
  intro ps
  induction ps with
  | nil =>
      intro st st2 h
      unfold packagesFold at h
      simp only [Except.ok.injEq] at h
      subst h
      exact ⟨rfl, rfl, rfl⟩
  | cons p ps ih =>
      intro st st2 h
      unfold packagesFold at h
      cases h1 : resolve_package_entry env config p st with
      | error e => simp only [h1] at h; exact Except.noConfusion h
      | ok st1 =>
          simp only [h1] at h
          obtain ⟨a1, b1, c1⟩ := resolve_package_entry_tree env config p st st1 h1
          obtain ⟨a2, b2, c2⟩ := ih st1 st2 h
          exact ⟨a2.trans a1, b2.trans b1, c2.trans c1⟩

/-- The resolver never touches the sources, roots or depths of the tree it
allocates handles from. -/
theorem resolve_packages_tree (env : Env) (config : Config) (md : Json) (t : DepTree)
    (pkgs : Packages) (t1 : DepTree)
    (h : resolve_packages env config md t = Except.ok (pkgs, t1)) :
    t1.sources = t.sources ∧ t1.roots = t.roots ∧ t1.depths = t.depths := by
  unfold resolve_packages at h
  cases h1 : as_array_from_value "packages" md with
  | error e => simp only [h1] at h; exact Except.noConfusion h
  | ok ps =>
      simp only [h1] at h
      exact packagesFold_tree env config ps
        ([], t.reserve_num_sources ps.length) (pkgs, t1) h

/-- A handle with dependency-free registered nodes only has no recorded
dependencies. -/
theorem depsOf_all_nil (t : DepTree) (h : ∀ p ∈ t.sources, p.2 = []) (i : SourceId) :
    t.depsOf i = [] := by
  unfold DepTree.depsOf
  cases hf : t.sources.find? (fun p => p.1.id == i) with
  | none => rfl
  | some q => simp [h q (List.mem_of_find?_eq_some hf)]

/-- With no recorded dependencies and any positive fuel, the depth is
zero. -/
theorem depthOf_nil (t : DepTree) (i : SourceId) (n : Nat) (h : t.depsOf i = []) :
    t.depthOf (n + 1) i = 0 := by
  unfold DepTree.depthOf
  rw [h]

/-- When every registered node is dependency-free, every computed depth is
zero. -/
theorem compute_depths_zero (t : DepTree) (h : ∀ p ∈ t.sources, p.2 = []) :
    ∀ q ∈ (t.compute_depths).depths, q.2 = 0 := by
  intro q hq
  unfold DepTree.compute_depths at hq
  simp only at hq
  obtain ⟨p, hp, hqe⟩ := List.mem_map.mp hq
  subst hqe
  obtain ⟨n, hn⟩ : ∃ n, t.sources.length = n + 1 :=
    ⟨t.sources.length - 1, (Nat.succ_pred_eq_of_pos (List.length_pos_of_mem hp)).symm⟩
  simp only [hn]
  exact depthOf_nil t p.1.id n (depsOf_all_nil t h p.1.id)

/-- The package-list fold splits over list append. -/
theorem packagesFold_append (env : Env) (config : Config) (l1 l2 : List Json) :
    ∀ st : Packages × DepTree,
    packagesFold env config (l1 ++ l2) st =
      match packagesFold env config l1 st with
      | Except.error e => Except.error e
      | Except.ok st1 => packagesFold env config l2 st1 := by
  induction l1 with
  | nil => intro st; rfl
  | cons p l1 ih =>
      intro st
      rw [List.cons_append]
      cases he : resolve_package_entry env config p st with
      | error e => simp [packagesFold, he]
      | ok st1 =>
          simp only [packagesFold, he]
          exact ih st1

/-- A head match survives appending on the right. -/
theorem leadMatch_append [BEq α] (ns l1 l2 : List α) (h : leadMatch ns l1 = true) :
    leadMatch ns (l1 ++ l2) = true := by
  induction ns generalizing l1 with
  | nil => rfl
  | cons n ns ih =>
      cases l1 with
      | nil => simp [leadMatch] at h
      | cons a l1 =>
          rw [List.cons_append]
          simp only [leadMatch, Bool.and_eq_true] at h ⊢
          exact ⟨h.1, ih l1 h.2⟩

/-- The empty pattern occurs in every list. -/
theorem hasSub_nil_left [BEq α] (l : List α) : hasSub ([] : List α) l = true := by
  cases l with
  | nil => rfl
  | cons a l => simp [hasSub, leadMatch]

/-- An occurrence survives appending on the right. -/
theorem hasSub_append_left [BEq α] (ns l1 l2 : List α) (h : hasSub ns l1 = true) :
    hasSub ns (l1 ++ l2) = true := by
  induction l1 with
  | nil =>
      unfold hasSub at h
      have hns : ns = [] := by
        cases ns with
        | nil => rfl
        | cons a l => simp [List.isEmpty] at h
      subst hns
      rw [List.nil_append]
      exact hasSub_nil_left l2
  | cons a l1 ih =>
      rw [List.cons_append]
      unfold hasSub at h ⊢
      rcases (Bool.or_eq_true _ _).mp h with h1 | h2
      · rw [← List.cons_append, leadMatch_append ns (a :: l1) l2 h1]
        rfl
      · rw [ih h2]
        simp

/-- A substring occurrence survives appending more text. -/
theorem rustContains_append_left (a b pat : String)
    (h : rustContains a pat = true) : rustContains (a ++ b) pat = true := by
  unfold rustContains at h ⊢
  have hdata : (a ++ b).toList = a.toList ++ b.toList := by
    simp [String.toList]
  rw [hdata]
  exact hasSub_append_left pat.toList a.toList b.toList h

/-- Claim C1 (corrected): during full-graph construction every dependency
handle of every registered node is the handle of an entry of the resolved
package mapping (lookup failure aborts construction, nothing is silently
dropped); membership in the mapping, not registration as a node, is what
the lookup guarantees. -/
theorem C1_theorem (env : Env) (config : Config) (md : Json) (pkgs : Packages)
    (t1 t : DepTree)
    (homit : config.omit_deps = false)
    (h1 : resolve_packages env config md DepTree.new = Except.ok (pkgs, t1))
    (h2 : build_dep_tree env config md pkgs t1 = Except.ok t) :
    ∀ p ∈ t.sources, ∀ d ∈ p.2, d ∈ pkgIds pkgs := by
  have hsrc : t1.sources = [] :=
    (resolve_packages_tree env config md DepTree.new pkgs t1 h1).1
  unfold build_dep_tree at h2
  cases hws : workspace_members env md with
  | error e => simp only [hws] at h2; exact Except.noConfusion h2
  | ok members =>
  simp only [hws] at h2
  cases hrf : rootsFold env config pkgs members ([], t1) with
  | error e => simp only [hrf] at h2; exact Except.noConfusion h2
  | ok pr =>
  obtain ⟨root_ids, t1x⟩ := pr
  simp only [hrf, homit, Bool.false_eq_true, if_false] at h2
  have ht1x : t1x = t1 :=
    rootsFold_full env config pkgs homit members [] t1 root_ids t1x hrf
  cases hro : as_object_from_value "resolve" md with
  | error e => simp only [hro] at h2; exact Except.noConfusion h2
  | ok resolve =>
  simp only [hro] at h2
  cases hnd : as_array_from_object "nodes" resolve with
  | error e => simp only [hnd] at h2; exact Except.noConfusion h2
  | ok nodes =>
  simp only [hnd] at h2
  obtain ⟨hall, _⟩ :=
    processNodes_sources env config pkgs root_ids nodes (t1x.set_roots root_ids) t h2
  intro p hp d hd
  rcases hall p hp with hin | hprop
  · rw [DepTree.set_roots] at hin
    simp only [ht1x, hsrc] at hin
    exact absurd hin (List.not_mem_nil p)
  · exact hprop.2 d hd

/-- Claim C5 (confirmed): with omit-deps configured, construction
registers exactly one root-flagged, dependency-free Source per workspace
member (in member order), sets the root set to exactly their handles, all
computed depths are zero, and the result does not depend on the
resolve-node list of the document. -/
theorem C5_theorem (env : Env) (config : Config) (md : Json) (pkgs : Packages)
    (t1 t : DepTree) (members : List SourceVersion)
    (homit : config.omit_deps = true)
    (hsrc : t1.sources = [])
    (hws : workspace_members env md = Except.ok members)
    (hb : build_dep_tree env config md pkgs t1 = Except.ok t) :
    t.sources.map (fun p => p.1.version) = members ∧
    (∀ p ∈ t.sources, p.1.is_root = true ∧ p.2 = []) ∧
    t.roots = t.sources.map (fun p => p.1.id) ∧
    (∀ q ∈ (t.compute_depths).depths, q.2 = 0) ∧
    (∀ md2, workspace_members env md2 = Except.ok members →
        build_dep_tree env config md2 pkgs t1 = Except.ok t) := by
  unfold build_dep_tree at hb
  simp only [hws] at hb
  cases hrf : rootsFold env config pkgs members ([], t1) with
  | error e => simp only [hrf] at hb; exact Except.noConfusion hb
  | ok pr =>
  obtain ⟨root_ids, t2⟩ := pr
  simp only [hrf, homit, if_true, Except.ok.injEq] at hb
  obtain ⟨srcs, hsources, hver, hids, hflags, hroots, hdepths⟩ :=
    rootsFold_omit_inv env config pkgs homit members [] t1 root_ids t2 hrf
  rw [List.nil_append] at hids
  have htsrc : t.sources = srcs := by
    rw [← hb, DepTree.set_roots]
    simp only [hsources, hsrc, List.nil_append]
  have hflags2 : ∀ p ∈ t.sources, p.1.is_root = true ∧ p.2 = [] := by
    rw [htsrc]; exact hflags
  refine ⟨by rw [htsrc, hver], hflags2, ?_, ?_, ?_⟩
  · rw [← hb, DepTree.set_roots]
    simp only [hids, hsources, hsrc, List.nil_append]
  · exact compute_depths_zero t (fun p hp => (hflags2 p hp).2)
  · intro md2 hws2
    unfold build_dep_tree
    simp only [hws2, hrf, homit, if_true, hb]

/-- Claim C8 (confirmed): every registered Source has is_root true exactly
when its handle is in the root set of the tree, and the root set is
exactly the handles of the resolved workspace-member packages. -/
theorem C8_theorem (env : Env) (config : Config) (md : Json) (pkgs : Packages)
    (t1 t : DepTree)
    (hsrc : t1.sources = [])
    (hb : build_dep_tree env config md pkgs t1 = Except.ok t) :
    (∀ p ∈ t.sources, p.1.is_root = t.roots.contains p.1.id) ∧
    (∃ members ids, workspace_members env md = Except.ok members ∧
      memberIds pkgs members = Except.ok ids ∧ t.roots = ids) := by
  unfold build_dep_tree at hb
  cases hws : workspace_members env md with
  | error e => simp only [hws] at hb; exact Except.noConfusion hb
  | ok members =>
  simp only [hws] at hb
  cases hrf : rootsFold env config pkgs members ([], t1) with
  | error e => simp only [hrf] at hb; exact Except.noConfusion hb
  | ok pr =>
  obtain ⟨root_ids, t2⟩ := pr
  simp only [hrf] at hb
  obtain ⟨⟨tail, htail, hmi⟩, _, _, hsrcs2⟩ :=
    rootsFold_inv env config pkgs members [] t1 root_ids t2 hrf
  rw [List.nil_append] at htail
  rw [← htail] at hmi
  cases hc : config.omit_deps with
  | true =>
      rw [hc] at hb
      simp only [if_true, Except.ok.injEq] at hb
      have hroots : t.roots = root_ids := by rw [← hb]; rfl
      refine ⟨?_, members, root_ids, rfl, hmi, hroots⟩
      intro p hp
      have hps : p ∈ t2.sources := by
        rw [← hb, DepTree.set_roots] at hp
        exact hp
      rcases hsrcs2 p hps with hin | ⟨hroot, _, hmem⟩
      · rw [hsrc] at hin; exact absurd hin (List.not_mem_nil p)
      · rw [hroot, hroots]
        exact (List.elem_eq_true_of_mem hmem).symm
  | false =>
      rw [hc] at hb
      simp only [Bool.false_eq_true, if_false] at hb
      cases hro : as_object_from_value "resolve" md with
      | error e => simp only [hro] at hb; exact Except.noConfusion hb
      | ok resolve =>
      simp only [hro] at hb
      cases hnd : as_array_from_object "nodes" resolve with
      | error e => simp only [hnd] at hb; exact Except.noConfusion hb
      | ok nodes =>
      simp only [hnd] at hb
      obtain ⟨hall, hro2⟩ :=
        processNodes_sources env config pkgs root_ids nodes (t2.set_roots root_ids) t hb
      have hroots : t.roots = root_ids := by rw [hro2]; rfl
      refine ⟨?_, members, root_ids, rfl, hmi, hroots⟩
      intro p hp
      have ht2 : t2 = t1 :=
        rootsFold_full env config pkgs hc members [] t1 root_ids t2 hrf
      rcases hall p hp with hin | ⟨hflag, _⟩
      · rw [DepTree.set_roots] at hin
        simp only [ht2, hsrc] at hin
        exact absurd hin (List.not_mem_nil p)
      · rw [hflag, hroots]

/-- Claim C9 (corrected): a packages entry lacking manifest_path makes the
whole construction fail with an error whose message names manifest_path —
provided the entry (here the first failing one) has a parsable id string
and a targets array, since those are fetched first; no tree is returned. -/
theorem C9_theorem (env : Env) (config : Config) (md : Json)
    (pre rest : List Json) (pkg : Json) (st1 : Packages × DepTree)
    (id v : String) (ts : List Json)
    (hpkgs : as_array_from_value "packages" md = Except.ok (pre ++ pkg :: rest))
    (hpre : packagesFold env config pre
        ([], DepTree.new.reserve_num_sources (pre ++ pkg :: rest).length) = Except.ok st1)
    (hid : as_str_from_value "id" pkg = Except.ok id)
    (hparse : env.parse_from_id id = Except.ok v)
    (ht : as_array_from_value "targets" pkg = Except.ok ts)
    (hman : pkg.get "manifest_path" = none) :
    dependency_tree env config md =
      Except.error ("Couldn\x27t find string entry \x27manifest_path\x27 in:\n"
        ++ to_string_pretty pkg) ∧
    rustContains ("Couldn\x27t find string entry \x27manifest_path\x27 in:\n"
        ++ to_string_pretty pkg) "manifest_path" = true := by
  have hmsg : as_str_from_value "manifest_path" pkg =
      Except.error ("Couldn\x27t find string entry \x27manifest_path\x27 in:\n"
        ++ to_string_pretty pkg) := by
    unfold as_str_from_value
    rw [hman]
    rfl
  have hsp : source_path env config pkg false =
      Except.error ("Couldn\x27t find string entry \x27manifest_path\x27 in:\n"
        ++ to_string_pretty pkg) := by
    simp only [source_path, ht, hmsg]
  have hentry : resolve_package_entry env config pkg st1 =
      Except.error ("Couldn\x27t find string entry \x27manifest_path\x27 in:\n"
        ++ to_string_pretty pkg) := by
    simp only [resolve_package_entry, hid, resolve_one_mode, hparse, hsp]
  constructor
  · unfold dependency_tree resolve_packages
    simp only [hpkgs]
    rw [packagesFold_append env config pre (pkg :: rest)
      ([], DepTree.new.reserve_num_sources (pre ++ pkg :: rest).length), hpre]
    unfold packagesFold
    rw [hentry]
  · exact rustContains_append_left
      "Couldn\x27t find string entry \x27manifest_path\x27 in:\n"
      (to_string_pretty pkg) "manifest_path" rfl

/-- Witness for C1_theorem: on the concrete envW workspace the hypotheses
hold and dependency handle 2 of the registered node for A is the handle of
the mapping entry of B. -/
theorem C1_witness : (2 : SourceId) ∈ pkgIds pkgsC1 :=
  C1_theorem envW cfgFull docC1 pkgsC1 treeC1r treeC1b rfl rfl rfl
    (⟨0, "A", [wAdir, wAdir], true⟩, [2]) (by decide) 2 (by decide)

/-- Witness for C2_theorem: the second sighting of A appends its directory
and advances the allocator of the concrete mid-iteration state. -/
theorem C2_witness :
    resolve_one_mode envW cfgFull pkgA "A" true (pkgsC2w, treeC2w) =
      Except.ok (appendPath pkgsC2w "A" wAdir,
        { treeC2w with next_id := treeC2w.next_id + 1 }) ∧
    lookupPkg (appendPath pkgsC2w "A" wAdir) "A" =
      some { source_id := 0, source_paths := [wAdir] ++ [wAdir] } :=
  C2_theorem envW cfgFull pkgA "A" "A" ⟨0, [wAdir]⟩ wAdir pkgsC2w treeC2w true rfl rfl rfl

/-- Witness for C3_theorem: the custom-build-only package resolves to
absent in both modes and its entry leaves the state untouched. -/
theorem C3_witness :
    source_path envW cfgFull pkgC4 false = Except.ok none ∧
    source_path envW cfgFull pkgC4 true = Except.ok none ∧
    resolve_package_entry envW cfgFull pkgC4 ([], DepTree.new) =
      Except.ok ([], DepTree.new) :=
  C3_theorem envW cfgFull pkgC4 [mkTarget ["custom-build"] "build.rs"]
    "C" "C" "/w/c/Cargo.toml" ⟨true, ["w", "c"]⟩ ([], DepTree.new)
    rfl rfl rfl rfl rfl (by decide)

/-- Witness for C4_theorem: a primary-mode failure aborts the entry of the
package with the nonexistent manifest directory, while the package whose
build-output directory is missing completes its entry successfully. -/
theorem C4_witness :
    resolve_package_entry envW cfgFull pkgBadDir ([], DepTree.new) =
      Except.error "Invalid source path directory \x27/w/d\x27" ∧
    okCheck (resolve_package_entry envC6 cfgFull pkgE ([], DepTree.new))
      (fun _ => true) = true :=
  ⟨C4_theorem.1 envW cfgFull pkgBadDir "D" "D"
      "Invalid source path directory \x27/w/d\x27" ([], DepTree.new) rfl rfl rfl,
   C4_theorem.2 envC6 cfgFull pkgE "E" "E" ⟨true, ["x", "p", "src"]⟩
      ([], DepTree.new) rfl rfl rfl rfl⟩

/-- Witness for C5_theorem: omit-deps construction over docC2 registers
exactly the member A. -/
theorem C5_witness : treeC5b.sources.map (fun p => p.1.version) = ["A"] :=
  (C5_theorem envW cfgOmit docC2 pkgsC5w treeC5r treeC5b ["A"] rfl rfl rfl rfl).1

/-- Witness for C6_theorem: the build-output candidate of package E is
/x/p/target, which does not exist, so the mode resolves to absent. -/
theorem C6_witness :
    source_path envC6 cfgFull pkgE true =
      Except.ok (if envC6.is_dir ((⟨true, ["x", "p"]⟩ : FsPath).join "target")
        then some ((⟨true, ["x", "p"]⟩ : FsPath).join "target") else none) :=
  C6_theorem envC6 cfgFull pkgE (mkTarget ["lib"] "/x/p/src/lib.rs")
    [] [] [] [] "lib" "/x/p/Cargo.toml" "/x/p/src/lib.rs"
    ⟨true, ["x", "p"]⟩ ⟨true, ["x", "p", "src"]⟩ ⟨true, ["x", "p"]⟩
    rfl (by decide) rfl rfl rfl (fun j hj => absurd hj (List.not_mem_nil j))
    rfl rfl rfl rfl rfl rfl

/-- Witness for C7_theorem: scanning pkgMulti skips the custom-build
target and returns the directory of the lib target, with the bin target
never examined. -/
theorem C7_witness : source_path envW cfgFull pkgMulti false = Except.ok (some wAdir) :=
  C7_theorem envW cfgFull pkgMulti (mkTarget ["lib"] "src/lib.rs")
    [mkTarget ["custom-build"] "build.rs"] [mkTarget ["bin"] "src/main.rs"]
    [] [] "lib" "/w/a/Cargo.toml" wAdir wAdir false
    rfl (by decide) rfl rfl rfl (fun j hj => absurd hj (List.not_mem_nil j))
    rfl rfl

/-- Witness for C8_theorem: the registered node for A in the docC1 tree
has is_root equal to root-set membership of its handle. -/
theorem C8_witness :
    (⟨0, "A", [wAdir, wAdir], true⟩ : Source).is_root = treeC1b.roots.contains 0 :=
  (C8_theorem envW cfgFull docC1 pkgsC1 treeC1r treeC1b rfl rfl).1
    (⟨0, "A", [wAdir, wAdir], true⟩, [2]) (by decide)

/-- Witness for C9_theorem: the entry with id and targets but no
manifest_path fails the whole construction with a message naming
manifest_path. -/
theorem C9_witness :
    dependency_tree envW cfgFull docC9w =
      Except.error ("Couldn\x27t find string entry \x27manifest_path\x27 in:\n"
        ++ to_string_pretty pkgC9w) ∧
    rustContains ("Couldn\x27t find string entry \x27manifest_path\x27 in:\n"
        ++ to_string_pretty pkgC9w) "manifest_path" = true :=
  C9_theorem envW cfgFull docC9w [] [] pkgC9w
    ([], DepTree.new.reserve_num_sources 1) "Z" "Z" [] rfl rfl rfl rfl rfl rfl

/-- Witness for C10_theorem: package A with its relative entry path
resolves to /w/a in both modes and its entry records that directory twice
under one handle while the allocator advances twice. -/
theorem C10_witness :
    source_path envW cfgFull pkgA false = Except.ok (some wAdir) ∧
    source_path envW cfgFull pkgA true = Except.ok (some wAdir) ∧
    resolve_package_entry envW cfgFull pkgA ([], DepTree.new) =
      Except.ok (([] : Packages) ++ [("A", ⟨DepTree.new.next_id, [wAdir, wAdir]⟩)],
        { DepTree.new with next_id := DepTree.new.next_id + 2 }) :=
  C10_theorem envW cfgFull pkgA (mkTarget ["lib"] "src/lib.rs") [] [] [] []
    "lib" "/w/a/Cargo.toml" "src/lib.rs" "A" "A" wAdir [] DepTree.new
    rfl rfl rfl rfl (by decide) rfl rfl rfl
    (fun j hj => absurd hj (List.not_mem_nil j)) rfl rfl rfl rfl
